import Mathlib

/-!
Shallow embedding of the voice-authentication core of `voiceAuth.js`
(class `VoiceAuthenticator`): the MFCC feature-extraction pipeline, the
cosine-similarity matcher, and the enrollment/verification state machine.
JavaScript floating-point numbers are modelled as real numbers; operations
that can produce NaN/Infinity in JavaScript (division by a zero divisor,
log of a non-positive argument, reading a field of `undefined`) are
modelled with `Option`, returning `none` exactly where the source would
produce such a value or throw.
-/

namespace VoiceAuth

open Real

/-- `cosineSimilarity(embedding1, embedding2)` with the epsilon of the
denominator made a parameter (the source hard-codes `1e-8`).  The source
loop runs `i` from `0` to `min(embedding1.length, embedding2.length) - 1`,
accumulating `dotProduct`, `norm1` and `norm2` over those components only;
this is the sum over the two prefixes of that common length. -/
noncomputable def cosineSimilarityEps (eps : ℝ) (embedding1 embedding2 : List ℝ) : ℝ :=
  let m := min embedding1.length embedding2.length
  let x := embedding1.take m
  let y := embedding2.take m
  let dotProduct := (List.zipWith (fun a b => a * b) x y).sum
  let norm1 := (List.zipWith (fun a b => a * b) x x).sum
  let norm2 := (List.zipWith (fun a b => a * b) y y).sum
  dotProduct / (Real.sqrt norm1 * Real.sqrt norm2 + eps)

/-- `cosineSimilarity` as in the source: epsilon `1e-8`. -/
noncomputable def cosineSimilarity (embedding1 embedding2 : List ℝ) : ℝ :=
  cosineSimilarityEps 1e-8 embedding1 embedding2

/-- `this.threshold = 0.75` set in the constructor and never reassigned. -/
noncomputable def threshold : ℝ := 0.75

/-- `Math.max(...similarities)`: the fold of binary max over the list.
Only ever applied to non-empty lists (the empty-profile guard runs first);
the `[]` value is arbitrary. -/
noncomputable def maxReduce : List ℝ → ℝ
  | [] => 0
  | x :: xs => xs.foldl max x

/-- The mutable fields of `VoiceAuthenticator` relevant to the
enrollment/verification state machine: `voiceEmbeddings`,
`recordingCount`, `isLocked`, `modelLoaded`. -/
structure AuthState where
  voiceEmbeddings : List (List ℝ)
  recordingCount : ℕ
  isLocked : Bool
  modelLoaded : Bool

/-- Observable outcome of one `authenticateVoice` attempt: the
empty-profile alert, or the accept branch (which runs `unlockSystem`,
dispatching one `voiceUnlocked` event), or the reject branch, each of the
latter two carrying the decision score `maxSimilarity`. -/
inductive AuthResult where
  | noProfile : AuthResult
  | accepted : ℝ → AuthResult
  | rejected : ℝ → AuthResult

def isAccepted : AuthResult → Bool
  | .accepted _ => true
  | _ => false

def isRejected : AuthResult → Bool
  | .rejected _ => true
  | _ => false

/-- Number of `voiceUnlocked` events dispatched by one verification
attempt: `unlockSystem` (reached exactly on the accept branch)
dispatches exactly one `CustomEvent('voiceUnlocked')`. -/
def eventsEmitted (r : AuthResult) : ℕ :=
  if isAccepted r then 1 else 0

/-- `unlockSystem()`: sets `isLocked = false` (the rest is DOM styling)
and dispatches the `voiceUnlocked` event (recorded by the caller via
`AuthResult.accepted`). -/
def unlockSystem (s : AuthState) : AuthState :=
  { s with isLocked := false }

/-- The state/decision core of `authenticateVoice()` for one completed
capture whose extracted embedding is `candidate`: the empty-profile guard,
the similarity map over `voiceEmbeddings`, the max reduction, and the
threshold test (`maxSimilarity > this.threshold`).  The average similarity
is also computed by the source but only logged, never used for the
decision. -/
noncomputable def authenticateStep (s : AuthState) (candidate : List ℝ) :
    AuthState × AuthResult :=
  if s.voiceEmbeddings.length = 0 then
    (s, .noProfile)
  else
    let similarities := s.voiceEmbeddings.map fun stored => cosineSimilarity candidate stored
    let maxSimilarity := maxReduce similarities
    if maxSimilarity > threshold then
      (unlockSystem s, .accepted maxSimilarity)
    else
      (s, .rejected maxSimilarity)

/-- The state effect of one successful `recordVoiceSample()` capture (the
`onstop` handler): push the embedding, increment `recordingCount`.  The
only state-relevant guard in the source is the early return when
`modelLoaded` is false; nothing guards against captures beyond the third. -/
def recordStep (s : AuthState) (embedding : List ℝ) : AuthState :=
  if s.modelLoaded = false then s
  else
    { s with
      voiceEmbeddings := s.voiceEmbeddings ++ [embedding],
      recordingCount := s.recordingCount + 1 }

/-- `resetVoiceProfile()`: clear the profile, zero the count, relock. -/
def resetVoiceProfile (s : AuthState) : AuthState :=
  { s with voiceEmbeddings := [], recordingCount := 0, isLocked := true }

/-- Constructor state after `loadModel()` succeeded: empty profile, count
zero, locked. -/
def initialState : AuthState :=
  { voiceEmbeddings := [], recordingCount := 0, isLocked := true, modelLoaded := true }

/- Facts about the fold of max. -/

lemma le_foldl_max (xs : List ℝ) : ∀ a : ℝ, a ≤ xs.foldl max a := by
  induction xs with
  | nil => intro a; simp
  | cons y ys ih =>
    intro a
    exact le_trans (le_max_left a y) (ih (max a y))

lemma foldl_max_mem (xs : List ℝ) : ∀ a : ℝ, xs.foldl max a = a ∨ xs.foldl max a ∈ xs := by
  induction xs with
  | nil => intro a; simp
  | cons y ys ih =>
    intro a
    rcases ih (max a y) with h | h
    · rcases le_total a y with hay | hya
      · right
        rw [List.foldl_cons, h, max_eq_right hay]
        exact List.mem_cons_self _ _
      · left
        rw [List.foldl_cons, h, max_eq_left hya]
    · right
      exact List.mem_cons_of_mem _ h

lemma mem_le_foldl_max (xs : List ℝ) : ∀ (a x : ℝ), x ∈ xs → x ≤ xs.foldl max a := by
  induction xs with
  | nil => intro a x h; simp at h
  | cons y ys ih =>
    intro a x h
    rcases List.mem_cons.mp h with rfl | h
    · exact le_trans (le_max_right a x) (le_foldl_max ys _)
    · exact ih _ x h

lemma maxReduce_mem {xs : List ℝ} (h : xs ≠ []) : maxReduce xs ∈ xs := by
  match xs with
  | [] => exact absurd rfl h
  | x :: ys =>
    rcases foldl_max_mem ys x with h0 | h0
    · rw [maxReduce, h0]; exact List.mem_cons_self _ _
    · exact List.mem_cons_of_mem _ h0

lemma le_maxReduce {xs : List ℝ} (x : ℝ) (hx : x ∈ xs) : x ≤ maxReduce xs := by
  match xs with
  | [] => simp at hx
  | y :: ys =>
    rcases List.mem_cons.mp hx with rfl | h
    · exact le_foldl_max ys x
    · exact mem_le_foldl_max ys y x h

/- Concrete states and evaluation lemmas for witnesses and counterexamples. -/

/-- A state with a complete one-sample-per-slot profile `[[1]]`, count at
target, still locked (verification not yet attempted). -/
def readyState : AuthState :=
  { voiceEmbeddings := [[1]], recordingCount := 3, isLocked := true, modelLoaded := true }

/-- The same profile, already unlocked by a previous verification. -/
def unlockedReady : AuthState :=
  { voiceEmbeddings := [[1]], recordingCount := 3, isLocked := false, modelLoaded := true }

lemma cosineSimilarity_one_one : cosineSimilarity [1] [1] = 1 / (1 + 1e-8) := by
  simp [cosineSimilarity, cosineSimilarityEps]

lemma cosineSimilarity_negone_one : cosineSimilarity [-1] [1] = -1 / (1 + 1e-8) := by
  simp [cosineSimilarity, cosineSimilarityEps]

lemma accept_eval (s : AuthState) (h : s.voiceEmbeddings = [[1]]) :
    authenticateStep s [1] = (unlockSystem s, .accepted (1 / (1 + 1e-8))) := by
  have hgt : threshold < ((1 : ℝ) + 1e-8)⁻¹ := by
    rw [threshold]
    norm_num
  simp [authenticateStep, h, maxReduce, cosineSimilarity_one_one, hgt]

lemma reject_eval (s : AuthState) (h : s.voiceEmbeddings = [[1]]) :
    authenticateStep s [-1] = (s, .rejected (-1 / (1 + 1e-8))) := by
  have hlt : (-1 : ℝ) / (1 + 1e-8) ≤ threshold := by
    rw [threshold]
    norm_num
  simp [authenticateStep, h, maxReduce, cosineSimilarity_negone_one, hlt]

/-- C1: for a verification attempt with a non-empty enrolled collection,
the decision score is the maximum of the cosine similarities between the
candidate and each enrolled embedding (it is a member of the score list
and bounds every score), the verdict is accept iff that maximum strictly
exceeds the threshold, the threshold is 0.75, and on the enrolled score
list [0.40, 0.81, 0.60] the maximum is 0.81, which exceeds the
threshold, giving accept. -/
theorem c1_decision_score_is_max (s : AuthState) (candidate : List ℝ)
    (h : s.voiceEmbeddings ≠ []) :
    maxReduce (s.voiceEmbeddings.map fun stored => cosineSimilarity candidate stored) ∈
      (s.voiceEmbeddings.map fun stored => cosineSimilarity candidate stored) ∧
    (∀ x ∈ s.voiceEmbeddings.map fun stored => cosineSimilarity candidate stored,
      x ≤ maxReduce (s.voiceEmbeddings.map fun stored => cosineSimilarity candidate stored)) ∧
    (isAccepted (authenticateStep s candidate).2 = true ↔
      maxReduce (s.voiceEmbeddings.map fun stored => cosineSimilarity candidate stored)
        > threshold) ∧
    threshold = 0.75 ∧
    maxReduce [0.40, 0.81, 0.60] = 0.81 ∧
    maxReduce [0.40, 0.81, 0.60] > threshold := by
  have hmap : (s.voiceEmbeddings.map fun stored => cosineSimilarity candidate stored) ≠ [] := by
    simpa using h
  have hlen : ¬ s.voiceEmbeddings.length = 0 := by
    simpa [List.length_eq_zero] using h
  have h1 : max (0.40 : ℝ) 0.81 = 0.81 := max_eq_right (by norm_num)
  have h2 : max (0.81 : ℝ) 0.60 = 0.81 := max_eq_left (by norm_num)
  have hinst : maxReduce [(0.40 : ℝ), 0.81, 0.60] = 0.81 := by
    rw [maxReduce, List.foldl_cons, List.foldl_cons, List.foldl_nil, h1, h2]
  refine ⟨maxReduce_mem hmap, fun x hx => le_maxReduce x hx, ?_, rfl, hinst, ?_⟩
  · by_cases hgt : maxReduce (s.voiceEmbeddings.map fun stored =>
        cosineSimilarity candidate stored) > threshold
    · simp [authenticateStep, hlen, hgt, isAccepted]
    · simp [authenticateStep, hlen, hgt, isAccepted]
  · rw [hinst, threshold]
    norm_num

/-- Witness for C1 at the concrete ready state and a matching candidate. -/
theorem c1_witness :
    (isAccepted (authenticateStep readyState [1]).2 = true ↔
      maxReduce (readyState.voiceEmbeddings.map fun stored => cosineSimilarity [1] stored)
        > threshold) ∧
    maxReduce [0.40, 0.81, 0.60] = 0.81 :=
  ⟨(c1_decision_score_is_max readyState [1] (by simp [readyState])).2.2.1,
    (c1_decision_score_is_max readyState [1] (by simp [readyState])).2.2.2.2.1⟩

/-- Four successive successful captures starting from the initial state. -/
def fourCaptures : AuthState :=
  recordStep (recordStep (recordStep (recordStep initialState [1]) [1]) [1]) [1]

/-- C2 counterexample: a fourth capture before any reset is not a
state-wise no-op — after four captures the profile holds four embeddings
and the count is 4, not the claimed three embeddings with count 3. -/
theorem c2_counterexample :
    fourCaptures.recordingCount = 4 ∧ fourCaptures.voiceEmbeddings.length = 4 ∧
    ¬ (fourCaptures.voiceEmbeddings.length = 3 ∧ fourCaptures.recordingCount = 3) := by
  simp [fourCaptures, recordStep, initialState]

/-- C2 amended: starting from the Locked state with an empty profile, each
of the first three successful captures appends exactly one embedding and
advances the count by one, reaching the target 3 (Ready) after the third;
but a fourth capture before any reset is not a no-op: it appends a fourth
embedding and advances the count to 4 (the source has no guard against
extra captures; only the UI hides the record button after setup). -/
theorem c2_enrollment_appends_every_capture (e1 e2 e3 e4 : List ℝ) :
    (recordStep initialState e1).voiceEmbeddings = [e1] ∧
    (recordStep initialState e1).recordingCount = 1 ∧
    (recordStep (recordStep initialState e1) e2).voiceEmbeddings = [e1, e2] ∧
    (recordStep (recordStep initialState e1) e2).recordingCount = 2 ∧
    (recordStep (recordStep (recordStep initialState e1) e2) e3).voiceEmbeddings
      = [e1, e2, e3] ∧
    (recordStep (recordStep (recordStep initialState e1) e2) e3).recordingCount = 3 ∧
    (recordStep (recordStep (recordStep (recordStep initialState e1) e2) e3) e4).voiceEmbeddings
      = [e1, e2, e3, e4] ∧
    (recordStep (recordStep (recordStep (recordStep initialState e1) e2) e3) e4).recordingCount
      = 4 := by
  simp [recordStep, initialState]

/-- C3 counterexample: one accepting verification from Ready emits the
voiceUnlocked notification and unlocks; a second accepting verification,
with no reset in between and the state already Unlocked, emits the
notification again. -/
theorem c3_counterexample :
    eventsEmitted (authenticateStep readyState [1]).2 = 1 ∧
    (authenticateStep readyState [1]).1.isLocked = false ∧
    eventsEmitted (authenticateStep (authenticateStep readyState [1]).1 [1]).2 = 1 := by
  have h1 := accept_eval readyState rfl
  have h2 := accept_eval (unlockSystem readyState) rfl
  rw [h1]
  refine ⟨rfl, rfl, ?_⟩
  show eventsEmitted (authenticateStep (unlockSystem readyState) [1]).2 = 1
  rw [h2]
  rfl

/-- C3 amended: Unlocked is preserved by verification attempts (no
verification re-locks) and only an explicit reset returns the state to
Locked; but the voiceUnlocked notification is not tied to the
Ready-to-Unlocked transition: authenticateVoice never consults the lock
state, so the outcome (hence the emission) is identical whatever
isLocked is, and every accepting attempt — including one made while
already Unlocked — emits exactly one event. -/
theorem c3_unlock_event_behaviour (s : AuthState) (candidate : List ℝ) (b : Bool) :
    (s.isLocked = false → (authenticateStep s candidate).1.isLocked = false) ∧
    (resetVoiceProfile s).isLocked = true ∧
    (authenticateStep { s with isLocked := b } candidate).2
      = (authenticateStep s candidate).2 ∧
    (isAccepted (authenticateStep s candidate).2 = true →
      eventsEmitted (authenticateStep s candidate).2 = 1) := by
  refine ⟨?_, rfl, ?_, ?_⟩
  · intro hb
    by_cases h0 : s.voiceEmbeddings.length = 0
    · simp [authenticateStep, h0, hb]
    · by_cases hgt : maxReduce (s.voiceEmbeddings.map fun stored =>
          cosineSimilarity candidate stored) > threshold
      · simp [authenticateStep, h0, hgt, unlockSystem]
      · simp [authenticateStep, h0, hgt, hb]
  · by_cases h0 : s.voiceEmbeddings.length = 0
    · simp [authenticateStep, h0]
    · by_cases hgt : maxReduce (s.voiceEmbeddings.map fun stored =>
          cosineSimilarity candidate stored) > threshold
      · simp [authenticateStep, h0, hgt]
      · simp [authenticateStep, h0, hgt]
  · intro hacc
    simp [eventsEmitted, hacc]

/-- Witness for C3 at an already-unlocked state and a matching candidate. -/
theorem c3_witness :
    (authenticateStep unlockedReady [1]).1.isLocked = false ∧
    eventsEmitted (authenticateStep unlockedReady [1]).2 = 1 := by
  refine ⟨(c3_unlock_event_behaviour unlockedReady [1] false).1 rfl,
    (c3_unlock_event_behaviour unlockedReady [1] false).2.2.2 ?_⟩
  rw [accept_eval unlockedReady rfl]
  rfl

/-- C7: a verification attempt with zero enrolled embeddings is answered
with the no-profile alert before the matcher runs (the result carries no
similarity score), and the state — profile, count and lock state — is
returned unchanged. -/
theorem c7_empty_profile_guard (s : AuthState) (candidate : List ℝ)
    (h : s.voiceEmbeddings = []) :
    authenticateStep s candidate = (s, AuthResult.noProfile) := by
  simp [authenticateStep, h]

/-- Witness for C7 at the initial (empty-profile) state. -/
theorem c7_witness :
    authenticateStep initialState [1] = (initialState, AuthResult.noProfile) :=
  c7_empty_profile_guard initialState [1] rfl

/-- C9: a verification attempt never appends to the profile and never
changes the enrollment count, whatever the outcome; and a rejected
attempt leaves the whole state (profile, count, lock state) exactly as it
was. -/
theorem c9_verification_never_mutates_profile (s : AuthState) (candidate : List ℝ) :
    (authenticateStep s candidate).1.voiceEmbeddings = s.voiceEmbeddings ∧
    (authenticateStep s candidate).1.recordingCount = s.recordingCount ∧
    (isRejected (authenticateStep s candidate).2 = true →
      (authenticateStep s candidate).1 = s) := by
  by_cases h0 : s.voiceEmbeddings.length = 0
  · simp [authenticateStep, h0]
  · by_cases hgt : maxReduce (s.voiceEmbeddings.map fun stored =>
        cosineSimilarity candidate stored) > threshold
    · simp [authenticateStep, h0, hgt, unlockSystem, isRejected]
    · simp [authenticateStep, h0, hgt, isRejected]

/-- Witness for C9 at the concrete ready state and a rejecting candidate. -/
theorem c9_witness : (authenticateStep readyState [-1]).1 = readyState := by
  apply (c9_verification_never_mutates_profile readyState [-1]).2.2
  rw [reject_eval readyState rfl]
  rfl

/- Cauchy-Schwarz for the truncated list sums of cosineSimilarity. -/

lemma zipWith_mul_sum_finset :
    ∀ (x y : List ℝ), x.length = y.length →
      (List.zipWith (fun u v => u * v) x y).sum
        = ∑ i ∈ Finset.range x.length, x.getD i 0 * y.getD i 0 := by
  intro x
  induction x with
  | nil => intro y h; simp
  | cons p ps ih =>
    intro y h
    match y with
    | [] => simp at h
    | q :: qs =>
      have hlen : ps.length = qs.length := by simpa using h
      rw [List.zipWith_cons_cons, List.sum_cons, ih qs hlen, List.length_cons,
        Finset.sum_range_succ']
      simp [add_comm]

lemma zipWith_self_sum_nonneg (x : List ℝ) :
    0 ≤ (List.zipWith (fun u v => u * v) x x).sum := by
  induction x with
  | nil => simp
  | cons p ps ih =>
    rw [List.zipWith_cons_cons, List.sum_cons]
    exact add_nonneg (mul_self_nonneg p) ih

lemma list_abs_inner_le_sqrt (x y : List ℝ) (h : x.length = y.length) :
    |(List.zipWith (fun u v => u * v) x y).sum|
      ≤ Real.sqrt ((List.zipWith (fun u v => u * v) x x).sum)
        * Real.sqrt ((List.zipWith (fun u v => u * v) y y).sum) := by
  have h2 : ((List.zipWith (fun u v => u * v) x y).sum) ^ 2
      ≤ ((List.zipWith (fun u v => u * v) x x).sum)
        * ((List.zipWith (fun u v => u * v) y y).sum) := by
    rw [zipWith_mul_sum_finset x y h, zipWith_mul_sum_finset x x rfl,
      zipWith_mul_sum_finset y y rfl, ← h]
    have hcs := Finset.sum_mul_sq_le_sq_mul_sq (Finset.range x.length)
      (fun i => x.getD i 0) (fun i => y.getD i 0)
    simpa [pow_two] using hcs
  have habs : |(List.zipWith (fun u v => u * v) x y).sum|
      = Real.sqrt (((List.zipWith (fun u v => u * v) x y).sum) ^ 2) :=
    (Real.sqrt_sq_eq_abs _).symm
  rw [habs, ← Real.sqrt_mul (zipWith_self_sum_nonneg x)]
  exact Real.sqrt_le_sqrt h2

lemma take_min_length_eq (a b : List ℝ) :
    (a.take (min a.length b.length)).length
      = (b.take (min a.length b.length)).length := by
  simp only [List.length_take]
  omega

/-- The similarity value is in [-1, 1] for every epsilon greater than 0
and any two vectors: the numerator is bounded in absolute value by the
product of the two truncated norms, which the denominator strictly
exceeds. -/
lemma cosineSimilarityEps_mem_Icc (eps : ℝ) (heps : 0 < eps) (a b : List ℝ) :
    -1 ≤ cosineSimilarityEps eps a b ∧ cosineSimilarityEps eps a b ≤ 1 := by
  set D := (List.zipWith (fun u v => u * v) (a.take (min a.length b.length))
    (b.take (min a.length b.length))).sum with hD
  set n1 := (List.zipWith (fun u v => u * v) (a.take (min a.length b.length))
    (a.take (min a.length b.length))).sum with hn1
  set n2 := (List.zipWith (fun u v => u * v) (b.take (min a.length b.length))
    (b.take (min a.length b.length))).sum with hn2
  have hval : cosineSimilarityEps eps a b = D / (Real.sqrt n1 * Real.sqrt n2 + eps) := rfl
  have hnn : 0 ≤ Real.sqrt n1 * Real.sqrt n2 :=
    mul_nonneg (Real.sqrt_nonneg _) (Real.sqrt_nonneg _)
  have hd : 0 < Real.sqrt n1 * Real.sqrt n2 + eps := by linarith
  have habs2 : |D| ≤ Real.sqrt n1 * Real.sqrt n2 :=
    list_abs_inner_le_sqrt _ _ (take_min_length_eq a b)
  have h1 : |cosineSimilarityEps eps a b| ≤ 1 := by
    rw [hval, abs_div, abs_of_pos hd]
    exact (div_le_one hd).2 (by linarith)
  exact abs_le.mp h1

/-- Self-similarity tends to 1 as the epsilon of the denominator tends
to 0, provided the vector has positive squared norm. -/
lemma cosineSimilarityEps_self_tendsto (a : List ℝ)
    (h : 0 < (List.zipWith (fun u v => u * v) a a).sum) :
    Filter.Tendsto (fun eps => cosineSimilarityEps eps a a) (nhds 0) (nhds 1) := by
  have hself : ∀ eps : ℝ, cosineSimilarityEps eps a a
      = (List.zipWith (fun u v => u * v) a a).sum
        / ((List.zipWith (fun u v => u * v) a a).sum + eps) := by
    intro eps
    have htake : a.take (min a.length a.length) = a := by
      rw [min_self, List.take_length]
    simp only [cosineSimilarityEps, htake]
    rw [Real.mul_self_sqrt (le_of_lt h)]
  set S := (List.zipWith (fun u v => u * v) a a).sum with hS
  have h2 : Filter.Tendsto (fun eps : ℝ => S + eps) (nhds 0) (nhds S) := by
    have hadd := Filter.Tendsto.add
      (tendsto_const_nhds : Filter.Tendsto (fun _ : ℝ => S) (nhds (0 : ℝ)) (nhds S))
      (Filter.tendsto_id : Filter.Tendsto id (nhds (0 : ℝ)) (nhds 0))
    simpa using hadd
  have h3 : Filter.Tendsto (fun eps : ℝ => S / (S + eps)) (nhds 0) (nhds (S / S)) :=
    Filter.Tendsto.div tendsto_const_nhds h2 (ne_of_gt h)
  rw [div_self (ne_of_gt h)] at h3
  exact h3.congr fun eps => (hself eps).symm

/-- C5: cosineSimilarity equals the dot product of the two
common-length prefixes divided by the product of the prefix norms plus
the epsilon 1e-8; for vectors whose truncated prefixes are non-zero the
value lies in [-1, 1]; and the self-similarity tends to 1 in the
epsilon-to-zero limit. -/
theorem c5_cosineSimilarity_formula_bounds_limit (a b : List ℝ) :
    (cosineSimilarity a b =
      (List.zipWith (fun u v => u * v) (a.take (min a.length b.length))
          (b.take (min a.length b.length))).sum /
        (Real.sqrt ((List.zipWith (fun u v => u * v) (a.take (min a.length b.length))
            (a.take (min a.length b.length))).sum)
          * Real.sqrt ((List.zipWith (fun u v => u * v) (b.take (min a.length b.length))
              (b.take (min a.length b.length))).sum) + 1e-8)) ∧
    (0 < (List.zipWith (fun u v => u * v) (a.take (min a.length b.length))
        (a.take (min a.length b.length))).sum →
      0 < (List.zipWith (fun u v => u * v) (b.take (min a.length b.length))
          (b.take (min a.length b.length))).sum →
      -1 ≤ cosineSimilarity a b ∧ cosineSimilarity a b ≤ 1) ∧
    (0 < (List.zipWith (fun u v => u * v) a a).sum →
      Filter.Tendsto (fun eps => cosineSimilarityEps eps a a) (nhds 0) (nhds 1)) :=
  ⟨rfl, fun _ _ => cosineSimilarityEps_mem_Icc 1e-8 (by norm_num) a b,
    cosineSimilarityEps_self_tendsto a⟩

/-- Witness for C5 at the concrete vectors [1] and [1]. -/
theorem c5_witness :
    (-1 ≤ cosineSimilarity [1] [1] ∧ cosineSimilarity [1] [1] ≤ 1) ∧
    Filter.Tendsto (fun eps => cosineSimilarityEps eps [1] [1]) (nhds 0) (nhds 1) :=
  ⟨(c5_cosineSimilarity_formula_bounds_limit [1] [1]).2.1 (by norm_num) (by norm_num),
    (c5_cosineSimilarity_formula_bounds_limit [1] [1]).2.2 (by norm_num)⟩

/- Mel filter bank (createMelFilterBank and its helpers). -/

/-- `hzToMel(hz) = 2595 * Math.log10(1 + hz / 700)`. -/
noncomputable def hzToMel (hz : ℝ) : ℝ := 2595 * Real.logb 10 (1 + hz / 700)

/-- `melToHz(mel) = 700 * (Math.pow(10, mel / 2595) - 1)`. -/
noncomputable def melToHz (mel : ℝ) : ℝ := 700 * ((10 : ℝ) ^ (mel / 2595) - 1)

/-- `melPoints[i]` as pushed by the loop in `createMelFilterBank`:
`lowFreqMel + (highFreqMel - lowFreqMel) * i / (numFilters + 1)` with
`lowFreqMel = hzToMel(0)` and `highFreqMel = hzToMel(sampleRate / 2)`,
for `i` in `0 .. numFilters + 1` (numFilters + 2 points). -/
noncomputable def melPoint (numFilters sampleRate : ℕ) (i : ℕ) : ℝ :=
  hzToMel 0 + (hzToMel ((sampleRate : ℝ) / 2) - hzToMel 0) * (i : ℝ) / ((numFilters : ℝ) + 1)

/-- `bins[i] = Math.floor((fftSize + 1) * hzPoints[i] / sampleRate)` with
`hzPoints[i] = melToHz(melPoints[i])`; `fftSize` is the length of the
power spectrum handed in by `applyMelFilterBank` (N/2 for an N-sample
frame). -/
noncomputable def binPoint (numFilters fftSize sampleRate : ℕ) (i : ℕ) : ℤ :=
  Int.floor (((fftSize : ℝ) + 1) * melToHz (melPoint numFilters sampleRate i)
    / (sampleRate : ℝ))

/-- The i-th triangular filter (the source loop runs `i` from 1 to
`numFilters`): a rising ramp on positions `bins[i-1] ≤ j < bins[i]`, a
falling ramp on `bins[i] ≤ j < bins[i+1]`, zero elsewhere, over an
`fftSize`-entry array. -/
noncomputable def melFilterAt (numFilters fftSize sampleRate : ℕ) (i : ℕ) : List ℝ :=
  (List.range fftSize).map fun (j : ℕ) =>
    if binPoint numFilters fftSize sampleRate (i - 1) ≤ (j : ℤ)
        ∧ (j : ℤ) < binPoint numFilters fftSize sampleRate i then
      ((j : ℝ) - ((binPoint numFilters fftSize sampleRate (i - 1) : ℤ) : ℝ))
        / (((binPoint numFilters fftSize sampleRate i : ℤ) : ℝ)
            - ((binPoint numFilters fftSize sampleRate (i - 1) : ℤ) : ℝ))
    else if binPoint numFilters fftSize sampleRate i ≤ (j : ℤ)
        ∧ (j : ℤ) < binPoint numFilters fftSize sampleRate (i + 1) then
      (((binPoint numFilters fftSize sampleRate (i + 1) : ℤ) : ℝ) - (j : ℝ))
        / (((binPoint numFilters fftSize sampleRate (i + 1) : ℤ) : ℝ)
            - ((binPoint numFilters fftSize sampleRate i : ℤ) : ℝ))
    else 0

/-- `createMelFilterBank(numFilters, fftSize, sampleRate)`: the list of
the `numFilters` triangular filters. -/
noncomputable def createMelFilterBank (numFilters fftSize sampleRate : ℕ) : List (List ℝ) :=
  (List.range numFilters).map fun k => melFilterAt numFilters fftSize sampleRate (k + 1)

lemma hzToMel_zero : hzToMel 0 = 0 := by
  simp [hzToMel]

lemma melToHz_hzToMel (hz : ℝ) (h : 0 ≤ hz) : melToHz (hzToMel hz) = hz := by
  rw [hzToMel, melToHz]
  have h7 : 0 < 1 + hz / 700 := by positivity
  rw [mul_div_cancel_left₀ _ (by norm_num : (2595 : ℝ) ≠ 0)]
  rw [Real.rpow_logb (by norm_num) (by norm_num) h7]
  ring

lemma melPoint_zero (numFilters sampleRate : ℕ) :
    melPoint numFilters sampleRate 0 = hzToMel 0 := by
  simp [melPoint]

lemma melPoint_top (numFilters sampleRate : ℕ) :
    melPoint numFilters sampleRate (numFilters + 1) = hzToMel ((sampleRate : ℝ) / 2) := by
  have hne : ((numFilters : ℝ) + 1) ≠ 0 := by positivity
  rw [melPoint, hzToMel_zero]
  push_cast
  rw [sub_zero, zero_add, mul_div_assoc, div_self hne, mul_one]

lemma melPoint_step (numFilters sampleRate : ℕ) (i : ℕ) :
    melPoint numFilters sampleRate (i + 1) - melPoint numFilters sampleRate i
      = (hzToMel ((sampleRate : ℝ) / 2) - hzToMel 0) / ((numFilters : ℝ) + 1) := by
  rw [melPoint, melPoint]
  push_cast
  ring

lemma binPoint_zero (numFilters fftSize sampleRate : ℕ) :
    binPoint numFilters fftSize sampleRate 0 = 0 := by
  have hmel : melToHz 0 = 0 := by
    simp [melToHz]
  rw [binPoint, melPoint_zero, hzToMel_zero, hmel]
  simp

lemma binPoint_top (numFilters fftSize sampleRate : ℕ) (hsr : 0 < sampleRate) :
    binPoint numFilters fftSize sampleRate (numFilters + 1)
      = Int.floor (((fftSize : ℝ) + 1) / 2) := by
  have hne : (sampleRate : ℝ) ≠ 0 := (Nat.cast_pos.mpr hsr).ne'
  rw [binPoint, melPoint_top, melToHz_hzToMel _ (by positivity)]
  congr 1
  field_simp
  ring

lemma createMelFilterBank_length (numFilters fftSize sampleRate : ℕ) :
    (createMelFilterBank numFilters fftSize sampleRate).length = numFilters := by
  simp [createMelFilterBank]

lemma melFilterAt_length (numFilters fftSize sampleRate i : ℕ) :
    (melFilterAt numFilters fftSize sampleRate i).length = fftSize := by
  rw [melFilterAt, List.length_map, List.length_range]

/-- C4 counterexample: for an fftSize-100 power spectrum (a 200-sample
frame, e.g. 25 ms at 8000 Hz) the topmost boundary bin is 50, not the
last power-spectrum index 99. -/
theorem c4_counterexample :
    binPoint 26 100 8000 27 = 50 ∧ (50 : ℤ) ≠ 100 - 1 := by
  constructor
  · rw [show (27 : ℕ) = 26 + 1 from rfl, binPoint_top 26 100 8000 (by norm_num)]
    rw [Int.floor_eq_iff]
    norm_num
  · decide

/-- C4 amended: createMelFilterBank builds exactly numFilters (26 at the
call site) triangular filters from numFilters+2 (28) boundary points
spaced evenly in Mel scale between mel(0) and mel(Nyquist = sampleRate/2)
(consecutive points differ by a constant Mel step), converted to Hz and
then to bin indices; the bottom boundary bin is 0, but the topmost
boundary bin is floor((fftSize+1)/2), not the last index fftSize-1 of
the power spectrum: the source passes the half-spectrum length to the
bin-conversion formula that expects the full FFT size, so the triangular
supports stop near the middle of the spectrum instead of Nyquist. -/
theorem c4_melFilterBank_structure (numFilters fftSize sampleRate : ℕ)
    (hsr : 0 < sampleRate) :
    (createMelFilterBank numFilters fftSize sampleRate).length = numFilters ∧
    melPoint numFilters sampleRate 0 = hzToMel 0 ∧
    melPoint numFilters sampleRate (numFilters + 1) = hzToMel ((sampleRate : ℝ) / 2) ∧
    (∀ i : ℕ, melPoint numFilters sampleRate (i + 1) - melPoint numFilters sampleRate i
      = (hzToMel ((sampleRate : ℝ) / 2) - hzToMel 0) / ((numFilters : ℝ) + 1)) ∧
    binPoint numFilters fftSize sampleRate 0 = 0 ∧
    binPoint numFilters fftSize sampleRate (numFilters + 1)
      = Int.floor (((fftSize : ℝ) + 1) / 2) :=
  ⟨createMelFilterBank_length _ _ _, melPoint_zero _ _, melPoint_top _ _,
    fun i => melPoint_step _ _ i, binPoint_zero _ _ _, binPoint_top _ _ _ hsr⟩

/-- Witness for C4 at numFilters 26, fftSize 100, sampleRate 8000. -/
theorem c4_witness :
    (createMelFilterBank 26 100 8000).length = 26 ∧
    binPoint 26 100 8000 27 = Int.floor (((100 : ℝ) + 1) / 2) :=
  ⟨(c4_melFilterBank_structure 26 100 8000 (by norm_num)).1,
    (c4_melFilterBank_structure 26 100 8000 (by norm_num)).2.2.2.2.2⟩

/- Spectral feature extraction (extractMFCC and its helper stages). -/

/-- `Math.max(...audioData.map(Math.abs))` for a non-empty signal.  (On
an empty array the source spread would give -Infinity; the value chosen
for `[]` below is irrelevant because mapping over an empty signal
performs no divisions.) -/
noncomputable def maxAbs : List ℝ → ℝ
  | [] => 0
  | x :: xs => (xs.map fun v => |v|).foldl max |x|

/-- `normalizeAudio`: divide every sample by (max absolute sample + 1e-8). -/
noncomputable def normalizeAudio (audioData : List ℝ) : List ℝ :=
  audioData.map fun x => x / (maxAbs audioData + 1e-8)

/-- `preEmphasis` with the default alpha 0.97:
`y[0] = x[0]`, `y[n] = x[n] - 0.97 * x[n-1]`. -/
noncomputable def preEmphasis : List ℝ → List ℝ
  | [] => []
  | x :: xs => x :: List.zipWith (fun cur prev => cur - 0.97 * prev) xs (x :: xs)

/-- Number of iterations of the `frameSignal` loop
(`for (i = 0; i + frameLength <= length; i += frameStep)`): closed form
for a positive step.  (For `frameStep = 0` the source loop would not
terminate; no caller reaches that, the step being 10 ms of samples.) -/
def numFrames (len frameLength frameStep : ℕ) : ℕ :=
  if frameLength ≤ len ∧ 0 < frameStep then (len - frameLength) / frameStep + 1 else 0

/-- `frameSignal`: the pushed slices `signal.slice(i, i + frameLength)`
for `i = 0, frameStep, 2*frameStep, ...` while `i + frameLength ≤ length`. -/
def frameSignal (signal : List ℝ) (frameLength frameStep : ℕ) : List (List ℝ) :=
  (List.range (numFrames signal.length frameLength frameStep)).map fun k =>
    (signal.drop (k * frameStep)).take frameLength

/-- `hammingWindow`: multiply pointwise by
`0.54 - 0.46 * cos(2*pi*n / (N-1))`.  For a one-sample frame the source
evaluates `cos(0/0)`, i.e. NaN — modelled as `none`; all other lengths
are total. -/
noncomputable def hammingWindow (frame : List ℝ) : Option (List ℝ) :=
  if frame.length = 1 then none
  else some (List.zipWith
    (fun x (n : ℕ) =>
      x * (0.54 - 0.46 * Real.cos (2 * Real.pi * (n : ℝ) / ((frame.length : ℝ) - 1))))
    frame (List.range frame.length))

/-- `computePowerSpectrum`: the source allocates `new Array(N / 2)`,
which throws a RangeError when the frame length N is odd (a non-integer
array length; reachable, e.g. a 25 ms frame at 22050 Hz is 551 samples)
— modelled as `none`.  For even N: the squared DFT magnitude over the
first N/2 bins, each divided by N. -/
noncomputable def computePowerSpectrum (frame : List ℝ) : Option (List ℝ) :=
  if frame.length % 2 = 1 then none
  else some ((List.range (frame.length / 2)).map fun (k : ℕ) =>
    ((List.zipWith (fun x (n : ℕ) =>
        x * Real.cos (-2 * Real.pi * (k : ℝ) * (n : ℝ) / (frame.length : ℝ))) frame
        (List.range frame.length)).sum
      * (List.zipWith (fun x (n : ℕ) =>
          x * Real.cos (-2 * Real.pi * (k : ℝ) * (n : ℝ) / (frame.length : ℝ))) frame
          (List.range frame.length)).sum
      + (List.zipWith (fun x (n : ℕ) =>
          x * Real.sin (-2 * Real.pi * (k : ℝ) * (n : ℝ) / (frame.length : ℝ))) frame
          (List.range frame.length)).sum
        * (List.zipWith (fun x (n : ℕ) =>
            x * Real.sin (-2 * Real.pi * (k : ℝ) * (n : ℝ) / (frame.length : ℝ))) frame
            (List.range frame.length)).sum)
      / (frame.length : ℝ))

/-- `applyMelFilterBank`: for each of the `numFilters` triangular
filters, the weighted power sum, then the natural log with the `1e-8`
floor.  `Math.log` of a non-positive argument would be NaN or -Infinity
in the source — modelled as `none`. -/
noncomputable def applyMelFilterBank (powerSpectrum : List ℝ) (sampleRate numFilters : ℕ) :
    Option (List ℝ) :=
  (createMelFilterBank numFilters powerSpectrum.length sampleRate).mapM fun filt =>
    if 0 < (List.zipWith (fun p w => p * w) powerSpectrum filt).sum + 1e-8 then
      some (Real.log ((List.zipWith (fun p w => p * w) powerSpectrum filt).sum + 1e-8))
    else none

/-- `computeDCT`: unnormalized DCT-II of the log-Mel vector, first
`numCoeffs` coefficients (13 at the call site). -/
noncomputable def computeDCT (melSpectrum : List ℝ) (numCoeffs : ℕ) : List ℝ :=
  (List.range numCoeffs).map fun (k : ℕ) =>
    (List.zipWith (fun x (n : ℕ) =>
      x * Real.cos (Real.pi * (k : ℝ) * ((n : ℝ) + 0.5) / (melSpectrum.length : ℝ)))
      melSpectrum (List.range melSpectrum.length)).sum

/-- `averageFeatures`: arithmetic mean across frames.  The source starts
from `features[0].length`, which on an empty frame list reads a field of
`undefined` and throws — modelled as `none`. -/
noncomputable def averageFeatures : List (List ℝ) → Option (List ℝ)
  | [] => none
  | f0 :: rest =>
    some ((List.range f0.length).map fun (i : ℕ) =>
      ((f0 :: rest).map fun f => f.getD i 0).sum / (((f0 :: rest).length : ℕ) : ℝ))

/-- `extractMFCC`: normalization, pre-emphasis, framing (25 ms frames,
10 ms step, floored to samples), Hamming window, power spectrum, Mel
filter bank (26 filters), DCT (13 coefficients), temporal averaging;
written as the explicit chain of the fallible stages. -/
noncomputable def extractMFCC (audioData : List ℝ) (sampleRate : ℕ) : Option (List ℝ) :=
  ((frameSignal (preEmphasis (normalizeAudio audioData))
      (25 * sampleRate / 1000) (10 * sampleRate / 1000)).mapM hammingWindow).bind
    fun windowed =>
      (windowed.mapM computePowerSpectrum).bind
        fun powerSpectrum =>
          (powerSpectrum.mapM fun spectrum =>
              applyMelFilterBank spectrum sampleRate 26).bind
            fun melSpectrum =>
              averageFeatures (melSpectrum.map fun mel => computeDCT mel 13)

lemma normalizeAudio_length (audioData : List ℝ) :
    (normalizeAudio audioData).length = audioData.length := by
  rw [normalizeAudio, List.length_map]

lemma preEmphasis_length (signal : List ℝ) :
    (preEmphasis signal).length = signal.length := by
  match signal with
  | [] => rfl
  | x :: xs =>
    rw [preEmphasis, List.length_cons, List.length_zipWith, List.length_cons]
    omega

lemma frameSignal_nil_of_short (signal : List ℝ) (fl fs : ℕ) (h : signal.length < fl) :
    frameSignal signal fl fs = [] := by
  have h0 : numFrames signal.length fl fs = 0 := by
    rw [numFrames, if_neg]
    intro hc
    omega
  rw [frameSignal, h0]
  rfl

/-- C6: if the signal is shorter than one 25 ms frame, framing yields
zero frames and feature extraction fails with an error (the source
throws reading `features[0].length` of an empty array; modelled as
`none`) instead of returning a feature vector. -/
theorem c6_zero_frames_error (audioData : List ℝ) (sampleRate : ℕ)
    (h : audioData.length < 25 * sampleRate / 1000) :
    extractMFCC audioData sampleRate = none := by
  have hlen : (preEmphasis (normalizeAudio audioData)).length < 25 * sampleRate / 1000 := by
    rw [preEmphasis_length, normalizeAudio_length]
    exact h
  have hframes : frameSignal (preEmphasis (normalizeAudio audioData))
      (25 * sampleRate / 1000) (10 * sampleRate / 1000) = [] :=
    frameSignal_nil_of_short _ _ _ hlen
  rw [extractMFCC, hframes]
  rfl

/-- Witness for C6 at a three-sample signal at 8000 Hz (frame length
200 samples). -/
theorem c6_witness : extractMFCC [0, 0, 0] 8000 = none :=
  c6_zero_frames_error [0, 0, 0] 8000 (by norm_num)

/- All-zero-signal facts for the silence-floor property. -/

lemma sum_allZero {l : List ℝ} (h : ∀ x ∈ l, x = 0) : l.sum = 0 := by
  induction l with
  | nil => rfl
  | cons a as ih =>
    rw [List.sum_cons, h a (List.mem_cons_self _ _), zero_add]
    exact ih fun x hx => h x (List.mem_cons_of_mem _ hx)

lemma zipWith_allZero {α : Type} (f : ℝ → α → ℝ) (hf : ∀ b, f 0 b = 0) :
    ∀ (l1 : List ℝ) (l2 : List α), (∀ x ∈ l1, x = 0) →
      ∀ x ∈ List.zipWith f l1 l2, x = 0 := by
  intro l1
  induction l1 with
  | nil => intro l2 _ x hx; simp at hx
  | cons a as ih =>
    intro l2 h x hx
    match l2 with
    | [] => simp at hx
    | b :: bs =>
      rw [List.zipWith_cons_cons] at hx
      rcases List.mem_cons.mp hx with rfl | hx2
      · rw [h a (List.mem_cons_self _ _)]
        exact hf b
      · exact ih bs (fun y hy => h y (List.mem_cons_of_mem _ hy)) x hx2

lemma zipWith_allZero2 (f : ℝ → ℝ → ℝ) (hf : f 0 0 = 0) :
    ∀ (l1 l2 : List ℝ), (∀ x ∈ l1, x = 0) → (∀ x ∈ l2, x = 0) →
      ∀ x ∈ List.zipWith f l1 l2, x = 0 := by
  intro l1
  induction l1 with
  | nil => intro l2 _ _ x hx; simp at hx
  | cons a as ih =>
    intro l2 h1 h2 x hx
    match l2 with
    | [] => simp at hx
    | b :: bs =>
      rw [List.zipWith_cons_cons] at hx
      rcases List.mem_cons.mp hx with rfl | hx2
      · rw [h1 a (List.mem_cons_self _ _), h2 b (List.mem_cons_self _ _)]
        exact hf
      · exact ih bs (fun y hy => h1 y (List.mem_cons_of_mem _ hy))
          (fun y hy => h2 y (List.mem_cons_of_mem _ hy)) x hx2

lemma normalizeAudio_allZero {l : List ℝ} (h : ∀ x ∈ l, x = 0) :
    ∀ x ∈ normalizeAudio l, x = 0 := by
  intro x hx
  rw [normalizeAudio] at hx
  obtain ⟨y, hy, rfl⟩ := List.mem_map.mp hx
  rw [h y hy, zero_div]

lemma preEmphasis_allZero {l : List ℝ} (h : ∀ x ∈ l, x = 0) :
    ∀ x ∈ preEmphasis l, x = 0 := by
  match l with
  | [] => intro x hx; simp [preEmphasis] at hx
  | a :: as =>
    intro x hx
    rw [preEmphasis] at hx
    rcases List.mem_cons.mp hx with rfl | hx2
    · exact h _ (List.mem_cons_self _ _)
    · exact zipWith_allZero2 _ (by norm_num) as (a :: as)
        (fun y hy => h y (List.mem_cons_of_mem _ hy)) h x hx2

lemma frameSignal_sublist_mem {signal : List ℝ} {fl fs : ℕ} :
    ∀ frame ∈ frameSignal signal fl fs, ∀ x ∈ frame, x ∈ signal := by
  intro frame hf x hx
  rw [frameSignal] at hf
  obtain ⟨k, _, rfl⟩ := List.mem_map.mp hf
  exact List.mem_of_mem_drop (List.mem_of_mem_take hx)

lemma frameSignal_length_mem {signal : List ℝ} {fl fs : ℕ} (hfl : fl ≤ signal.length)
    (hfs : 0 < fs) :
    ∀ frame ∈ frameSignal signal fl fs, frame.length = fl := by
  intro frame hf
  rw [frameSignal] at hf
  obtain ⟨k, hk, rfl⟩ := List.mem_map.mp hf
  have hk2 : k < numFrames signal.length fl fs := List.mem_range.mp hk
  rw [numFrames, if_pos ⟨hfl, hfs⟩] at hk2
  have hk3 : k ≤ (signal.length - fl) / fs := Nat.lt_succ_iff.mp hk2
  have hk4 : k * fs ≤ signal.length - fl := by
    calc k * fs ≤ (signal.length - fl) / fs * fs := Nat.mul_le_mul_right _ hk3
    _ ≤ signal.length - fl := Nat.div_mul_le_self _ _
  rw [List.length_take, List.length_drop]
  omega

lemma frameSignal_ne_nil {signal : List ℝ} {fl fs : ℕ} (hfl : fl ≤ signal.length)
    (hfs : 0 < fs) : frameSignal signal fl fs ≠ [] := by
  have h0 : numFrames signal.length fl fs = (signal.length - fl) / fs + 1 := by
    rw [numFrames, if_pos ⟨hfl, hfs⟩]
  rw [frameSignal, h0]
  simp

lemma hammingWindow_allZero {frame : List ℝ} (hlen : frame.length ≠ 1)
    (hz : ∀ x ∈ frame, x = 0) :
    ∃ w, hammingWindow frame = some w ∧ (∀ x ∈ w, x = 0) ∧ w.length = frame.length := by
  rw [hammingWindow, if_neg hlen]
  refine ⟨_, rfl, zipWith_allZero _ ?_ frame _ hz, ?_⟩
  · intro b
    simp
  · rw [List.length_zipWith, List.length_range]
    omega

lemma computePowerSpectrum_none_of_odd {frame : List ℝ} (h : frame.length % 2 = 1) :
    computePowerSpectrum frame = none := by
  rw [computePowerSpectrum, if_pos h]

lemma computePowerSpectrum_allZero {frame : List ℝ} (heven : frame.length % 2 = 0)
    (hz : ∀ x ∈ frame, x = 0) :
    ∃ s, computePowerSpectrum frame = some s ∧ ∀ x ∈ s, x = 0 := by
  rw [computePowerSpectrum, if_neg (by omega)]
  refine ⟨_, rfl, ?_⟩
  intro x hx
  obtain ⟨k, _, rfl⟩ := List.mem_map.mp hx
  have hre : (List.zipWith (fun x (n : ℕ) =>
      x * Real.cos (-2 * Real.pi * (k : ℝ) * (n : ℝ) / (frame.length : ℝ))) frame
      (List.range frame.length)).sum = 0 := by
    refine sum_allZero (zipWith_allZero _ ?_ frame _ hz)
    intro b
    simp
  have him : (List.zipWith (fun x (n : ℕ) =>
      x * Real.sin (-2 * Real.pi * (k : ℝ) * (n : ℝ) / (frame.length : ℝ))) frame
      (List.range frame.length)).sum = 0 := by
    refine sum_allZero (zipWith_allZero _ ?_ frame _ hz)
    intro b
    simp
  rw [hre, him]
  norm_num

lemma mapM_option_forall {α β : Type} (f : α → Option β) (P : β → Prop) :
    ∀ l : List α, (∀ x ∈ l, ∃ y, f x = some y ∧ P y) →
      ∃ ys, l.mapM f = some ys ∧ ys.length = l.length ∧ ∀ y ∈ ys, P y := by
  intro l
  induction l with
  | nil =>
    intro _
    exact ⟨[], rfl, rfl, by intro y hy; simp at hy⟩
  | cons a as ih =>
    intro h
    obtain ⟨y, hy, hPy⟩ := h a (List.mem_cons_self _ _)
    obtain ⟨ys, hys, hlen, hP⟩ := ih fun x hx => h x (List.mem_cons_of_mem _ hx)
    refine ⟨y :: ys, ?_, by simp [hlen], ?_⟩
    · rw [List.mapM_cons, hy, hys]
      rfl
    · intro z hz
      rcases List.mem_cons.mp hz with rfl | hz2
      · exact hPy
      · exact hP z hz2

lemma applyMelFilterBank_allZero {spectrum : List ℝ} (hz : ∀ x ∈ spectrum, x = 0)
    (sampleRate numFilters : ℕ) :
    ∃ mel, applyMelFilterBank spectrum sampleRate numFilters = some mel ∧
      mel.length = numFilters := by
  rw [applyMelFilterBank]
  have hall : ∀ filt ∈ createMelFilterBank numFilters spectrum.length sampleRate,
      ∃ y, (if 0 < (List.zipWith (fun p w => p * w) spectrum filt).sum + 1e-8 then
          some (Real.log ((List.zipWith (fun p w => p * w) spectrum filt).sum + 1e-8))
        else none) = some y ∧ True := by
    intro filt _
    have hsum : (List.zipWith (fun p w => p * w) spectrum filt).sum = 0 := by
      refine sum_allZero (zipWith_allZero _ ?_ spectrum _ hz)
      intro b
      simp
    rw [hsum, if_pos (by norm_num)]
    exact ⟨_, rfl, trivial⟩
  obtain ⟨ys, hys, hlen, _⟩ := mapM_option_forall _ _ _ hall
  exact ⟨ys, hys, by rw [hlen, createMelFilterBank_length]⟩

lemma computeDCT_length (melSpectrum : List ℝ) (numCoeffs : ℕ) :
    (computeDCT melSpectrum numCoeffs).length = numCoeffs := by
  rw [computeDCT, List.length_map, List.length_range]

/-- C8 counterexample: at 22050 Hz a 25 ms frame is 551 samples (odd),
so on an all-zero 551-sample signal — long enough for exactly one frame —
the power-spectrum stage evaluates `new Array(551 / 2)` with a
non-integer length and throws a RangeError (modelled `none`): no finite
13-coefficient vector is returned. -/
theorem c8_counterexample : extractMFCC (List.replicate 551 (0 : ℝ)) 22050 = none := by
  have hlen : (preEmphasis (normalizeAudio (List.replicate 551 (0 : ℝ)))).length = 551 := by
    rw [preEmphasis_length, normalizeAudio_length, List.length_replicate]
  have hfl : 25 * 22050 / 1000 = 551 := by norm_num
  have hfs : 10 * 22050 / 1000 = 220 := by norm_num
  have hframes : frameSignal (preEmphasis (normalizeAudio (List.replicate 551 (0 : ℝ))))
      (25 * 22050 / 1000) (10 * 22050 / 1000)
      = [preEmphasis (normalizeAudio (List.replicate 551 (0 : ℝ)))] := by
    rw [frameSignal, hlen, hfl, hfs]
    rw [show numFrames 551 551 220 = 1 from by decide,
      show List.range 1 = [0] from rfl]
    simp only [List.map_cons, List.map_nil, Nat.zero_mul, List.drop_zero]
    rw [List.take_of_length_le hlen.le]
  have hz2 : ∀ x ∈ preEmphasis (normalizeAudio (List.replicate 551 (0 : ℝ))), x = 0 :=
    preEmphasis_allZero (normalizeAudio_allZero fun _ hx => List.eq_of_mem_replicate hx)
  obtain ⟨w0, hham, _, hw0len⟩ := hammingWindow_allZero (by rw [hlen]; norm_num) hz2
  have hmapm : [preEmphasis (normalizeAudio (List.replicate 551 (0 : ℝ)))].mapM hammingWindow
      = some [w0] := by
    rw [List.mapM_cons, hham]
    rfl
  have hcps : computePowerSpectrum w0 = none := by
    apply computePowerSpectrum_none_of_odd
    rw [hw0len, hlen]
  have hmapm2 : [w0].mapM computePowerSpectrum = none := by
    rw [List.mapM_cons, hcps]
    rfl
  rw [extractMFCC, hframes, hmapm, Option.some_bind', hmapm2]
  rfl

/-- C8 amended: an all-zero signal long enough for at least one frame
yields a defined 13-coefficient feature vector — thanks to the 1e-8
guards in normalization and in the log-Mel energies every checked stage
returns a value, so no coefficient is NaN or infinite — provided the
25 ms frame length in samples is even (and at least two, with a positive
10 ms step); for an odd frame length (e.g. 551 samples at 22050 Hz) the
source instead throws a RangeError from `new Array(N / 2)` in the
power-spectrum stage and returns no vector at all. -/
theorem c8_silence_gives_finite_mfcc (audioData : List ℝ) (sampleRate : ℕ)
    (hzero : ∀ x ∈ audioData, x = 0)
    (hfl2 : 2 ≤ 25 * sampleRate / 1000)
    (heven : 25 * sampleRate / 1000 % 2 = 0)
    (hlen : 25 * sampleRate / 1000 ≤ audioData.length)
    (hfs : 0 < 10 * sampleRate / 1000) :
    ∃ v, extractMFCC audioData sampleRate = some v ∧ v.length = 13 := by
  have hz1 : ∀ x ∈ normalizeAudio audioData, x = 0 := normalizeAudio_allZero hzero
  have hz2 : ∀ x ∈ preEmphasis (normalizeAudio audioData), x = 0 := preEmphasis_allZero hz1
  have hlen2 : 25 * sampleRate / 1000 ≤ (preEmphasis (normalizeAudio audioData)).length := by
    rw [preEmphasis_length, normalizeAudio_length]
    exact hlen
  have hwin : ∀ frame ∈ frameSignal (preEmphasis (normalizeAudio audioData))
      (25 * sampleRate / 1000) (10 * sampleRate / 1000),
      ∃ w, hammingWindow frame = some w ∧
        ((∀ x ∈ w, x = 0) ∧ w.length = 25 * sampleRate / 1000) := by
    intro frame hf
    have hflen : frame.length = 25 * sampleRate / 1000 :=
      frameSignal_length_mem hlen2 hfs frame hf
    obtain ⟨w, hw, hwz, hwl⟩ := hammingWindow_allZero (by omega)
      (fun x hx => hz2 x (frameSignal_sublist_mem frame hf x hx))
    exact ⟨w, hw, hwz, by rw [hwl, hflen]⟩
  obtain ⟨ws, hws, hwslen, hwsP⟩ := mapM_option_forall hammingWindow
    (fun w => (∀ x ∈ w, x = 0) ∧ w.length = 25 * sampleRate / 1000) _ hwin
  have hpsall : ∀ w ∈ ws, ∃ s, computePowerSpectrum w = some s ∧ ∀ x ∈ s, x = 0 := by
    intro w hw
    obtain ⟨hwz, hwl⟩ := hwsP w hw
    exact computePowerSpectrum_allZero (by omega) hwz
  obtain ⟨pss, hpss, hpsslen, hpssz⟩ := mapM_option_forall computePowerSpectrum
    (fun s => ∀ x ∈ s, x = 0) _ hpsall
  have hmelall : ∀ spectrum ∈ pss,
      ∃ mel, applyMelFilterBank spectrum sampleRate 26 = some mel ∧ True := by
    intro spectrum hs
    obtain ⟨mel, hmel, _⟩ := applyMelFilterBank_allZero (hpssz spectrum hs) sampleRate 26
    exact ⟨mel, hmel, trivial⟩
  obtain ⟨mels, hmels, hmelslen, _⟩ := mapM_option_forall _ _ _ hmelall
  have hne : frameSignal (preEmphasis (normalizeAudio audioData))
      (25 * sampleRate / 1000) (10 * sampleRate / 1000) ≠ [] :=
    frameSignal_ne_nil hlen2 hfs
  have hframeslen : mels.length = (frameSignal (preEmphasis (normalizeAudio audioData))
      (25 * sampleRate / 1000) (10 * sampleRate / 1000)).length := by
    rw [hmelslen, hpsslen, hwslen]
  have hmelsne : mels ≠ [] := by
    intro hnil
    rw [hnil] at hframeslen
    exact hne (List.length_eq_zero.mp hframeslen.symm)
  obtain ⟨m0, mrest, rfl⟩ := List.exists_cons_of_ne_nil hmelsne
  rw [extractMFCC, hws, Option.some_bind', hpss, Option.some_bind', hmels,
    Option.some_bind', List.map_cons]
  exact ⟨_, rfl, by rw [List.length_map, List.length_range, computeDCT_length]⟩

/-- Witness for C8 at a 200-sample all-zero signal at 8000 Hz (even
frame length 200). -/
theorem c8_witness :
    ∃ v, extractMFCC (List.replicate 200 (0 : ℝ)) 8000 = some v ∧ v.length = 13 :=
  c8_silence_gives_finite_mfcc (List.replicate 200 0) 8000
    (fun _ hx => List.eq_of_mem_replicate hx) (by norm_num) (by norm_num)
    (by rw [List.length_replicate]) (by norm_num)

/- Deep embedding extraction (extractDeepEmbedding). -/

/-- The pad-or-truncate step: `mfcc.slice(0, 128)` followed by pushing
zeros while the length is below 128. -/
def padTo128 (mfcc : List ℝ) : List ℝ :=
  mfcc.take 128 ++ List.replicate (128 - (mfcc.take 128).length) 0

/-- `extractDeepEmbedding(mfcc)`: returns `mfcc` unchanged when the model
is not loaded or absent; otherwise feeds the padded vector through the
model (`tf.tensor3d`, `model.predict`, `embedding.array()`, abstracted as
one function returning `none` when any of those throws); the try/catch of
the source turns a throw into returning `mfcc`. -/
def extractDeepEmbedding (modelLoaded : Bool)
    (model : Option (List ℝ → Option (List ℝ))) (mfcc : List ℝ) : List ℝ :=
  match modelLoaded, model with
  | false, _ => mfcc
  | true, none => mfcc
  | true, some predict =>
    match predict (padTo128 mfcc) with
    | none => mfcc
    | some embeddingArray => embeddingArray

/-- C10: extractDeepEmbedding is total — it never propagates a throw to
its caller: when the model is not loaded, or absent, or the
tensor/prediction step throws, it returns the input MFCC vector itself
unchanged; in every case it returns either the input or the model
output, so downstream matching always receives an embedding. -/
theorem c10_extractDeepEmbedding_never_throws (modelLoaded : Bool)
    (model : Option (List ℝ → Option (List ℝ))) (mfcc : List ℝ) :
    (modelLoaded = false → extractDeepEmbedding modelLoaded model mfcc = mfcc) ∧
    (model = none → extractDeepEmbedding modelLoaded model mfcc = mfcc) ∧
    (∀ predict, model = some predict → predict (padTo128 mfcc) = none →
      extractDeepEmbedding modelLoaded model mfcc = mfcc) ∧
    (extractDeepEmbedding modelLoaded model mfcc = mfcc ∨
      ∃ predict e, model = some predict ∧ predict (padTo128 mfcc) = some e ∧
        extractDeepEmbedding modelLoaded model mfcc = e) := by
  cases modelLoaded with
  | false => exact ⟨fun _ => rfl, fun _ => rfl, fun p hp hn => rfl, Or.inl rfl⟩
  | true =>
    cases model with
    | none =>
      exact ⟨fun h => Bool.noConfusion h, fun _ => rfl,
        fun p hp hn => Option.noConfusion hp, Or.inl rfl⟩
    | some predict =>
      refine ⟨fun h => Bool.noConfusion h, fun h => Option.noConfusion h, ?_, ?_⟩
      · intro p hp2 hn
        obtain rfl : predict = p := by injection hp2
        simp [extractDeepEmbedding, hn]
      · cases hp : predict (padTo128 mfcc) with
        | none => exact Or.inl (by simp [extractDeepEmbedding, hp])
        | some e => exact Or.inr ⟨predict, e, rfl, hp, by simp [extractDeepEmbedding, hp]⟩

/-- Witness for C10 with the model not loaded. -/
theorem c10_witness : extractDeepEmbedding false none [1, 2, 3] = [1, 2, 3] :=
  (c10_extractDeepEmbedding_never_throws false none [1, 2, 3]).1 rfl

end VoiceAuth
